import Mathlib

/-
Verification of the git2mind ingestion pipeline (readers, parsers, chunker)
against its design document.  Python strings are modelled as `List Char`
(one entry per code point, matching Python's `str` indexing and `len`);
machine-level concerns (file system, hashing) are modelled by the pure
functions the code computes on the data it reads.
-/

namespace Git2Mind

/-- Python strings are sequences of code points. -/
abbrev Str := List Char

/-- Python `content.split(chr)` for a one-character separator: always returns
at least one piece, keeps empty pieces, splits at every occurrence. -/
def splitOn (sep : Char) : Str → List Str
  | [] => [[]]
  | c :: cs =>
    if c = sep then [] :: splitOn sep cs
    else
      match splitOn sep cs with
      | [] => [[c]]
      | l :: ls => (c :: l) :: ls

/-- Python `sep.join(pieces)` for a one-character separator. -/
def joinSep (sep : Char) : List Str → Str
  | [] => []
  | [w] => w
  | w :: x :: ws => w ++ sep :: joinSep sep (x :: ws)

/-- Line count computed by `BaseParser.parse` (parsers.py line 14):
`content.count(chr(10)) + 1 if content else 0`. -/
def docLines (content : Str) : Nat :=
  if content = [] then 0 else content.count '\n' + 1

/-- Number of bytes of the UTF-8 encoding of one code point. -/
def utf8CharSize (c : Char) : Nat :=
  if c.val < 0x80 then 1
  else if c.val < 0x800 then 2
  else if c.val < 0x10000 then 3
  else 4

/-- Python `len(content.encode())`: byte length of the UTF-8 encoding. -/
def utf8Len (content : Str) : Nat :=
  (content.map utf8CharSize).sum

/-- Document id computed in `BaseParser.parse` (parsers.py line 13): a sha1
digest of path followed by content, i.e. a deterministic function of the
pair.  The digest itself is modelled by the pair, which no claim inspects. -/
def docId (path content : Str) : Str :=
  path ++ content

/-- Data model `Document` (data_models.py lines 4-16).  The `meta` bag is
modelled per parser kind by the dedicated extraction functions below; the
`last_modified` timestamp entry is a file-system fact outside the data. -/
structure Document where
  id : Str
  path : Str
  language : String
  size_bytes : Nat
  lines : Nat
  content : Str
  deriving DecidableEq, Repr

/-- Data model `Chunk` (data_models.py lines 18-26); the optional `summary`
field is never set by the core and is omitted. -/
structure Chunk where
  doc_id : Str
  path : Str
  content : Str
  start_line : Nat
  end_line : Nat
  deriving DecidableEq, Repr

/-- Base fields computed by `BaseParser.parse` (parsers.py lines 12-26). -/
def baseParse (path content : Str) (language : String) : Document :=
  { id := docId path content
    path := path
    language := language
    size_bytes := utf8Len content
    lines := docLines content
    content := content }

/-- Loop body of `SimpleChunker.chunk_document` (chunker.py lines 15-24):
`for i in range(0, len(lines), chunk_size)` with a positive step, emitting
`Chunk(content=join(lines[i:i+s]), start_line=i+1, end_line=min(i+s, len(lines)))`.
The fuel argument only bounds the iteration count; `lines.length` iterations
always suffice for a positive step. -/
def chunkAux (docIdv path : Str) (s : Nat) (lines : List Str) (i : Nat) : Nat → List Chunk
  | 0 => []
  | fuel + 1 =>
    if i < lines.length then
      { doc_id := docIdv
        path := path
        content := joinSep '\n' ((lines.drop i).take s)
        start_line := i + 1
        end_line := min (i + s) lines.length } :: chunkAux docIdv path s lines (i + s) fuel
    else []

/-- Chunk list produced for a positive chunk size. -/
def chunksOf (s : Nat) (doc : Document) : List Chunk :=
  let lines := splitOn '\n' doc.content
  chunkAux doc.id doc.path s lines 0 lines.length

/-- `SimpleChunker.chunk_document` (chunker.py lines 10-26).  The chunk size
is the raw integer the CLI passes in: `range(0, len(lines), 0)` raises
`ValueError`, a negative step yields an empty range (the line list of a
split is never empty, so its length is positive), and a positive step
produces the windows. -/
def chunk_document (chunk_size : Int) (doc : Document) : Except String (List Chunk) :=
  if chunk_size = 0 then .error "ValueError: range() arg 3 must not be zero"
  else if chunk_size < 0 then .ok []
  else .ok (chunksOf chunk_size.toNat doc)

/-- Configuration validation performed by `main` before any scanning
(git2mind.py lines 226-230): only the existence of the root path is
checked; the chunk-size and max-files arguments are accepted unexamined. -/
def mainValidate (pathExists : Bool) (chunk_size max_files : Int) : Option String :=
  if pathExists = false then some "Path does not exist" else none

/-- Decidable equality for the error monad used by the embedding. -/
instance instDecEqExcept {ε α : Type} [DecidableEq ε] [DecidableEq α] :
    DecidableEq (Except ε α) := fun a b =>
  match a, b with
  | .ok x, .ok y =>
    if h : x = y then isTrue (by rw [h]) else isFalse (by intro hh; cases hh; exact h rfl)
  | .error x, .error y =>
    if h : x = y then isTrue (by rw [h]) else isFalse (by intro hh; cases hh; exact h rfl)
  | .ok _, .error _ => isFalse (by intro hh; cases hh)
  | .error _, .ok _ => isFalse (by intro hh; cases hh)

/-- Python whitespace: the characters stripped by `str.strip()` (ASCII
range, which covers every string the claims touch). -/
def isPyWs (c : Char) : Bool :=
  c = ' ' || c = '\t' || c = '\n' || c = '\r' || c = '\x0b' || c = '\x0c'

/-- Python `line.strip()`. -/
def stripWs (l : Str) : Str :=
  ((l.dropWhile isPyWs).reverse.dropWhile isPyWs).reverse

/-- Python `line.upper()` (ASCII case mapping, which covers the directive
keywords this code compares against). -/
def upperStr (l : Str) : Str := l.map Char.toUpper

/-- Python `s.lower()` (ASCII case mapping). -/
def lowerStr (l : Str) : Str := l.map Char.toLower

/-- Characters at which Python `str.splitlines()` breaks a line. -/
def isLineBreak (c : Char) : Bool :=
  c = '\n' || c = '\r' || c = '\x0b' || c = '\x0c' ||
  c = '\x1c' || c = '\x1d' || c = '\x1e' || c = '\x85' ||
  c = '\u2028' || c = '\u2029'

/-- Python `content.splitlines()`: no trailing empty piece, a `\r\n` pair
counts as one break. -/
def pySplitlines : Str → List Str
  | [] => []
  | '\r' :: '\n' :: rest => [] :: pySplitlines rest
  | c :: rest =>
    if isLineBreak c then [] :: pySplitlines rest
    else
      match pySplitlines rest with
      | [] => [[c]]
      | l0 :: ls => (c :: l0) :: ls

/-- Python `pattern.rstrip(chr(47) + chr(42))`: drop trailing slashes and
stars (readers.py line 64). -/
def rstripSlashStar (p : Str) : Str :=
  (p.reverse.dropWhile (fun c => c = '/' || c = '*')).reverse

/-- Scan for the closing bracket of an fnmatch character class, mirroring
`fnmatch.translate`: a leading `!` and a `]` right after it (or after the
opening bracket) are part of the class body; `none` means the class never
closes and the opening bracket is literal. -/
def splitClass (l : Str) : Option (Str × Str) :=
  let k : Nat :=
    match l with
    | '!' :: ']' :: _ => 2
    | '!' :: _ => 1
    | ']' :: _ => 1
    | _ => 0
  match (l.drop k).findIdx? (fun c => c = ']') with
  | none => none
  | some j => some (l.take (k + j), l.drop (k + j + 1))

/-- Membership of a character in an fnmatch class item list, with `a-z`
ranges; a trailing dash is literal. -/
def classItemsMatch : Str → Char → Bool
  | a :: '-' :: b :: rest, c =>
    (decide (a ≤ c) && decide (c ≤ b)) || classItemsMatch rest c
  | a :: rest, c => (a = c) || classItemsMatch rest c
  | [], _ => false

/-- Match one fnmatch character class body, with leading `!` negation. -/
def matchClass (body : Str) (c : Char) : Bool :=
  match body with
  | '!' :: items => !(classItemsMatch items c)
  | items => classItemsMatch items c

/-- Worker for `fnmatch.fnmatch` pattern matching: `*` matches any
sequence (path separators included), `?` any one character, `[...]` a
character class.  The fuel argument only bounds the recursion depth; every
step shrinks pattern length plus string length, so the initial fuel of
`globMatch` is never exhausted. -/
def globMatchAux : Nat → Str → Str → Bool
  | 0, _, _ => false
  | fuel + 1, p, s =>
    match p, s with
    | [], [] => true
    | [], _ :: _ => false
    | '*' :: p1, s =>
      globMatchAux fuel p1 s ||
        (match s with
         | [] => false
         | _ :: s1 => globMatchAux fuel ('*' :: p1) s1)
    | '?' :: p1, s =>
      (match s with
       | [] => false
       | _ :: s1 => globMatchAux fuel p1 s1)
    | '[' :: rest, s =>
      (match splitClass rest with
       | none =>
         match s with
         | c :: s1 => (c = '[') && globMatchAux fuel rest s1
         | [] => false
       | some (body, p1) =>
         match s with
         | c :: s1 => matchClass body c && globMatchAux fuel p1 s1
         | [] => false)
    | c :: p1, s =>
      (match s with
       | d :: s1 => (c = d) && globMatchAux fuel p1 s1
       | [] => false)

/-- Python `fnmatch.fnmatch(name, pattern)` on a POSIX host, where
`normcase` is the identity. -/
def globMatch (p s : Str) : Bool :=
  globMatchAux (p.length + s.length + 1) p s

/-- Modelled from the spec: one compiled rule of the external
`pathspec.patterns.GitWildMatchPattern` ignore-file engine (readers.py
lines 38-41).  A rule carries its re-inclusion flag (leading `!`) and an
abstract match predicate on the relative path string. -/
structure GitRule where
  neg : Bool
  hits : Str → Bool

/-- Modelled from the spec: `PathSpec.match_file` of the external pathspec
dependency — rules are evaluated in file order, the last matching rule
decides, and a negated (`!`) last match re-includes the path. -/
def matchFile (rules : List GitRule) (path : Str) : Bool :=
  match (rules.filter (fun r => r.hits path)).getLast? with
  | none => false
  | some r => !r.neg

/-- Default exclude patterns appended by `RepoReader.__init__`
(readers.py lines 21-26). -/
def defaultExcludes : List Str :=
  ["*.pyc".data, "__pycache__".data, "__pycache__/*".data, ".git".data, ".git/*".data,
   ".venv".data, ".venv/*".data, "venv".data, "venv/*".data,
   "node_modules".data, "node_modules/*".data, "dist".data, "dist/*".data,
   "build".data, "build/*".data, "*.egg-info".data]

/-- Names of `relative.parents` for a relative path given by its
components: each proper ancestor's final component, innermost first, ending
with the empty name of the root `.` entry. -/
def parentNames (comps : List Str) : List Str :=
  comps.dropLast.reverse ++ [[]]

/-- Gitignore arm of `RepoReader.should_exclude` (readers.py lines 49-53):
taken when the flag is on and a spec was loaded and it matches. -/
def ignoreFileExcludes (use_gitignore : Bool) (gitignore_spec : Option (List GitRule))
    (comps : List Str) : Bool :=
  use_gitignore &&
    (match gitignore_spec with
     | none => false
     | some rules => matchFile rules (joinSep '/' comps))

/-- Pattern loop of `RepoReader.should_exclude` (readers.py lines 56-65):
each pattern is tried against the relative path, the bare filename, and
every ancestor directory name (pattern stripped of trailing slash-star). -/
def patternsExclude (exclude_patterns : List Str) (comps : List Str) : Bool :=
  exclude_patterns.any (fun pattern =>
    globMatch pattern (joinSep '/' comps) ||
    globMatch pattern (comps.getLast?.getD []) ||
    (parentNames comps).any (fun pn => globMatch (rstripSlashStar pattern) pn))

/-- `RepoReader.should_exclude` (readers.py lines 44-66): the gitignore
check returns early; otherwise the custom pattern loop decides.  The path
is given by its components relative to the scan root. -/
def should_exclude (use_gitignore : Bool) (gitignore_spec : Option (List GitRule))
    (exclude_patterns : List Str) (comps : List Str) : Bool :=
  if ignoreFileExcludes use_gitignore gitignore_spec comps then true
  else patternsExclude exclude_patterns comps

/-- State of a constructed `RepoReader` (readers.py lines 14-42). -/
structure RepoReader where
  path : Str
  use_gitignore : Bool
  exclude_patterns : List Str
  gitignore_spec : Option (List GitRule)

/-- Result of running `RepoReader.__init__`, together with the observable
effect on the caller's pattern list. -/
structure InitOutcome where
  reader : RepoReader
  callerListAfter : Option (List Str)
  callerListMutated : Bool

/-- `RepoReader.__init__` (readers.py lines 14-42).  The statement
`self.exclude_patterns = exclude_patterns or []` aliases the caller's list
exactly when the caller passed a non-empty (truthy) list; the subsequent
`extend` then mutates that list in place.  For `None` or an empty list a
fresh list receives the defaults.  The gitignore file content (an external
file-system read) is passed in as `gitignoreFile`, `none` when the file
does not exist; the spec is loaded only when the flag is on. -/
def repoReaderInit (path : Str) (callerPatterns : Option (List Str))
    (use_gitignore : Bool) (gitignoreFile : Option (List GitRule)) : InitOutcome :=
  let selfPatterns :=
    match callerPatterns with
    | some (p :: ps) => (p :: ps) ++ defaultExcludes
    | _ => defaultExcludes
  { reader :=
      { path := path
        use_gitignore := use_gitignore
        exclude_patterns := selfPatterns
        gitignore_spec := if use_gitignore then gitignoreFile else none }
    callerListAfter :=
      callerPatterns.map (fun l =>
        match l with
        | [] => []
        | p :: ps => (p :: ps) ++ defaultExcludes)
    callerListMutated :=
      match callerPatterns with
      | some (_ :: _) => true
      | _ => false }

/-- Python `part.split(sep, 1)[0]` for a multi-character separator: the
prefix before the first occurrence of the separator (the whole string when
the separator never occurs). -/
def beforeSub (sep : Str) : Str → Str
  | [] => []
  | c :: cs => if sep.isPrefixOf (c :: cs) then [] else c :: beforeSub sep cs

/-- Python `s.split(None, 1)`: split on the first whitespace run, with
leading whitespace of the remainder stripped. -/
def splitNoneOnce (l : Str) : List Str :=
  let l1 := l.dropWhile isPyWs
  if l1 = [] then []
  else
    let tok := l1.takeWhile (fun c => !isPyWs c)
    let rest := (l1.dropWhile (fun c => !isPyWs c)).dropWhile isPyWs
    if rest = [] then [tok] else [tok, rest]

/-- Python dict assignment `env[k] = v` on an insertion-ordered
association list: replace the value in place if the key exists, else
append. -/
def envUpdate : List (Str × Str) → Str → Str → List (Str × Str)
  | [], k, v => [(k, v)]
  | (k0, v0) :: rest, k, v =>
    if k0 = k then (k, v) :: rest else (k0, v0) :: envUpdate rest k v

/-- Python dict lookup `env.get(k)` on the association list (keys are
unique, so the first hit is the entry). -/
def envLookup (env : List (Str × Str)) (k : Str) : Option Str :=
  (env.find? (fun pr => pr.1 == k)).map (fun pr => pr.2)

/-- Metadata extracted by `DockerfileParser.parse` (parsers.py lines
72-106). -/
structure DockerMeta where
  image : Option Str
  workdir : Option Str
  entrypoint : Option Str
  cmd : Option Str
  env : List (Str × Str)
  deriving DecidableEq, Repr

/-- Initial extraction state of `DockerfileParser.parse`. -/
def initDockerMeta : DockerMeta :=
  { image := none, workdir := none, entrypoint := none, cmd := none, env := [] }

/-- Loop body of `DockerfileParser.parse` (parsers.py lines 80-100): strip
the line, detect the directive by an upper-cased prefix check, slice the
argument from the original stripped line.  The `FROM` branch fires only
when `image` is still falsy (`None` or the empty string), and its value
drops everything from the first occurrence of the uppercase `AS` marker. -/
def dockerStep (st : DockerMeta) (rawLine : Str) : DockerMeta :=
  let line := stripWs rawLine
  let upper_line := upperStr line
  if "FROM ".data.isPrefixOf upper_line && (st.image.getD []).isEmpty then
    { st with image := some (stripWs (beforeSub (" AS ".data) (line.drop 5))) }
  else if "WORKDIR ".data.isPrefixOf upper_line then
    { st with workdir := some (stripWs (line.drop 8)) }
  else if "ENTRYPOINT ".data.isPrefixOf upper_line then
    { st with entrypoint := some (stripWs (line.drop 11)) }
  else if "CMD ".data.isPrefixOf upper_line then
    { st with cmd := some (stripWs (line.drop 4)) }
  else if "ENV ".data.isPrefixOf upper_line then
    let env_part := stripWs (line.drop 4)
    if env_part.contains '=' then
      let key := stripWs (env_part.takeWhile (fun c => c != '='))
      let value := stripWs ((env_part.dropWhile (fun c => c != '=')).drop 1)
      { st with env := envUpdate st.env key value }
    else
      match splitNoneOnce env_part with
      | [k, v] => { st with env := envUpdate st.env k v }
      | _ => st
  else st

/-- `DockerfileParser.parse` metadata extraction over a given line list. -/
def dockerParseLines (lines : List Str) : DockerMeta :=
  lines.foldl dockerStep initDockerMeta

/-- `DockerfileParser.parse` metadata extraction (parsers.py lines 72-106):
iterate `content.splitlines()`. -/
def dockerfileParse (content : Str) : DockerMeta :=
  dockerParseLines (pySplitlines content)

/-- Recognizer for a base-image directive line (stripped, upper-cased
prefix check of the loop body). -/
def isFromLine (raw : Str) : Bool :=
  "FROM ".data.isPrefixOf (upperStr (stripWs raw))

/-- Image value a FROM line contributes: the argument before the first
uppercase `AS` marker, trimmed. -/
def fromValue (raw : Str) : Str :=
  stripWs (beforeSub (" AS ".data) ((stripWs raw).drop 5))

/-- Image values of all FROM lines, in order. -/
def fromVals (lines : List Str) : List Str :=
  (lines.filter isFromLine).map fromValue

/-- Recognizer for a working-directory directive line. -/
def isWorkdirLine (raw : Str) : Bool :=
  "WORKDIR ".data.isPrefixOf (upperStr (stripWs raw))

/-- Argument of a WORKDIR line. -/
def workdirValue (raw : Str) : Str := stripWs ((stripWs raw).drop 8)

/-- Arguments of all WORKDIR lines, in order. -/
def wdVals (lines : List Str) : List Str :=
  (lines.filter isWorkdirLine).map workdirValue

/-- Recognizer for an entrypoint directive line. -/
def isEntrypointLine (raw : Str) : Bool :=
  "ENTRYPOINT ".data.isPrefixOf (upperStr (stripWs raw))

/-- Argument of an ENTRYPOINT line. -/
def entrypointValue (raw : Str) : Str := stripWs ((stripWs raw).drop 11)

/-- Arguments of all ENTRYPOINT lines, in order. -/
def epVals (lines : List Str) : List Str :=
  (lines.filter isEntrypointLine).map entrypointValue

/-- Recognizer for a CMD directive line. -/
def isCmdLine (raw : Str) : Bool :=
  "CMD ".data.isPrefixOf (upperStr (stripWs raw))

/-- Argument of a CMD line. -/
def cmdValue (raw : Str) : Str := stripWs ((stripWs raw).drop 4)

/-- Arguments of all CMD lines, in order. -/
def cmdVals (lines : List Str) : List Str :=
  (lines.filter isCmdLine).map cmdValue

/-- Recognizer for an environment directive line. -/
def isEnvLine (raw : Str) : Bool :=
  "ENV ".data.isPrefixOf (upperStr (stripWs raw))

/-- Key-value pair an ENV line contributes: `key=value` split at the first
equals sign with both sides trimmed, else a whitespace split into exactly
two parts; `none` when the line is not an ENV line or has no value. -/
def envPairOf (raw : Str) : Option (Str × Str) :=
  if isEnvLine raw then
    let env_part := stripWs ((stripWs raw).drop 4)
    if env_part.contains '=' then
      some (stripWs (env_part.takeWhile (fun c => c != '=')),
            stripWs ((env_part.dropWhile (fun c => c != '=')).drop 1))
    else
      match splitNoneOnce env_part with
      | [k, v] => some (k, v)
      | _ => none
  else none

/-- Values contributed for one environment key, in line order. -/
def envValsFor (k : Str) (lines : List Str) : List Str :=
  lines.filterMap (fun l =>
    match envPairOf l with
    | some (k0, v) => if k0 = k then some v else none
    | none => none)

/-- Last value of a list, with a default for the empty list. -/
def lastValD (vs : List Str) (d : Option Str) : Option Str :=
  match vs.getLast? with
  | some v => some v
  | none => d

/-- Image resulting from a start value and the FROM values processed in
order: a truthy start value survives; otherwise the first non-empty FROM
value wins; if every FROM value is empty the image is the empty string,
and with no FROM directive at all the start value stays. -/
def imageFromVals (init : Option Str) (vs : List Str) : Option Str :=
  if (init.getD []).isEmpty = false then init
  else
    match vs.filter (fun v => !v.isEmpty) with
    | v :: _ => some v
    | [] => if vs = [] then init else some []

/-- Restatement of `dockerStep` as a directive-kind dispatch; equal to the
loop body because the five directive prefixes are pairwise incompatible. -/
def dockerSpecStep (st : DockerMeta) (l : Str) : DockerMeta :=
  if isFromLine l then
    if (st.image.getD []).isEmpty then { st with image := some (fromValue l) } else st
  else if isWorkdirLine l then { st with workdir := some (workdirValue l) }
  else if isEntrypointLine l then { st with entrypoint := some (entrypointValue l) }
  else if isCmdLine l then { st with cmd := some (cmdValue l) }
  else
    match envPairOf l with
    | some (k, v) => { st with env := envUpdate st.env k v }
    | none => st

/-- `LicenseParser.parse` metadata extraction (parsers.py lines 112-116):
`content.splitlines()[0].strip()`, which raises `IndexError` on an empty
line list. -/
def licenseHeader (content : Str) : Except String Str :=
  match pySplitlines content with
  | [] => .error "IndexError: list index out of range"
  | l :: _ => .ok (stripWs l)

/-- Parser kinds dispatched by `get_parser` (parsers.py lines 126-139). -/
inductive ParserKind where
  | python
  | markdown
  | dockerfile
  | license
  | text
  | unknown
  deriving DecidableEq, Repr

/-- Python `pathlib.PurePath.suffix` of a file name: the part from the
last dot on, empty when the dot is the first character, absent, or last. -/
def extSuffix (name : Str) : Str :=
  match name.reverse.findIdx? (fun c => c = '.') with
  | none => []
  | some j =>
    let i := name.length - 1 - j
    if 0 < i ∧ i + 1 < name.length then name.drop i else []

/-- `get_parser` (parsers.py lines 126-139): exact filename matches first,
then the lower-cased extension, else the unknown kind. -/
def parserFor (name : Str) : ParserKind :=
  if name = "Dockerfile".data then .dockerfile
  else if name = "LICENSE".data then .license
  else
    let ext := lowerStr (extSuffix name)
    if ext = ".py".data then .python
    else if ext = ".md".data then .markdown
    else if ext = ".txt".data then .text
    else .unknown

/-- Language tag returned by each parser's `get_language`. -/
def parserLanguage : ParserKind → String
  | .python => "python"
  | .markdown => "markdown"
  | .dockerfile => "dockerfile"
  | .license => "license"
  | .text => "text"
  | .unknown => "unknown"

/-- Dispatch plus parse for one file (readers.py lines 98-100): every
parser computes the base fields; only `LicenseParser.parse` can raise,
from indexing the line list of empty content.  The metadata bags are
modelled by the dedicated extraction functions. -/
def parseFile (comps : List Str) (content : Str) : Except String Document :=
  match parserFor (comps.getLast?.getD []) with
  | .license =>
    (match licenseHeader content with
     | .error e => .error e
     | .ok _ => .ok (baseParse (joinSep '/' comps) content "license"))
  | k => .ok (baseParse (joinSep '/' comps) content (parserLanguage k))

/-- One entry yielded by `self.path.rglob(chr(42))`: its components
relative to the root, whether it is a regular file, and the decoded text
content (`none` when opening or UTF-8 decoding fails). -/
structure FileInfo where
  comps : List Str
  isFile : Bool
  decoded : Option Str

/-- Outcome of the `read_files` loop body for one entry. -/
inductive EntryResult where
  | notFile
  | excludedEntry
  | undecodable
  | tooLarge
  | accepted : Document → EntryResult
  | raised : String → EntryResult
  deriving DecidableEq, Repr

/-- Loop body of `RepoReader.read_files` for one entry (readers.py lines
78-101): skip non-files, excluded paths, undecodable files, and files
whose decoded length exceeds 100000 characters; otherwise parse.  An
exception escaping the parser propagates. -/
def processEntry (use_gitignore : Bool) (gitignore_spec : Option (List GitRule))
    (exclude_patterns : List Str) (f : FileInfo) : EntryResult :=
  if f.isFile = false then .notFile
  else if should_exclude use_gitignore gitignore_spec exclude_patterns f.comps then .excludedEntry
  else
    match f.decoded with
    | none => .undecodable
    | some content =>
      if content.length > 100000 then .tooLarge
      else
        match parseFile f.comps content with
        | .error e => .raised e
        | .ok doc => .accepted doc

/-- The `read_files` traversal loop (readers.py lines 68-107): stop when
the accepted count reaches the cap, process each entry, collect accepted
documents, and let a raised exception abort the whole call. -/
def readFilesAux (ug : Bool) (spec : Option (List GitRule)) (pats : List Str)
    (max_files : Int) :
    List FileInfo → List Document → Int → Except String (List Document)
  | [], docs, _ => .ok docs
  | f :: fs, docs, count =>
    if max_files ≤ count then .ok docs
    else
      match processEntry ug spec pats f with
      | .accepted d => readFilesAux ug spec pats max_files fs (docs ++ [d]) (count + 1)
      | .raised e => .error e
      | _ => readFilesAux ug spec pats max_files fs docs count

/-- `RepoReader.read_files` (readers.py lines 68-107) over the entry list
the file-system walk yields. -/
def read_files (ug : Bool) (spec : Option (List GitRule)) (pats : List Str)
    (max_files : Int) (entries : List FileInfo) : Except String (List Document) :=
  readFilesAux ug spec pats max_files entries [] 0

/-- Concrete ignore-file rule matching exactly the path `a/b.txt`, with a
selectable re-inclusion flag. -/
def c5Rule (negFlag : Bool) : GitRule :=
  { neg := negFlag, hits := fun p => p = "a/b.txt".data }

/-- An ignore file with a single exclusion rule for `a/b.txt`. -/
def c5RulesExclude : List GitRule := [c5Rule false]

/-- An ignore file excluding `a/b.txt` and then re-including it. -/
def c5RulesBoth : List GitRule := [c5Rule false, c5Rule true]

/-- Components of the relative path `a/b.txt`. -/
def c5Comps : List Str := ["a".data, "b.txt".data]

/-- The build-manifest example input of the design document. -/
def c6Example : Str :=
  "FROM alpine:3.18 AS build\nWORKDIR /app\nENV KEY=value\nENV KEY=other".data

/-- A build manifest whose first base-image directive has an empty
extracted value (everything from the `AS` marker on is dropped). -/
def c6Degenerate : Str :=
  "FROM  AS b\nFROM alpine:3.18".data

/-- A decoded file of 50001 euro-sign characters: at most 100000
characters but 150003 UTF-8 bytes. -/
def c8Big : Str := List.replicate 50001 '€'

/-- Whether a loop-body outcome produced a Document. -/
def isAcceptedResult : EntryResult → Bool
  | .accepted _ => true
  | _ => false

-- THEOREMS

/-- A split never produces an empty list of pieces. -/
theorem splitOn_ne_nil (sep : Char) : ∀ l : Str, splitOn sep l ≠ [] := by
  intro l
  induction l with
  | nil => simp [splitOn]
  | cons c cs ih =>
    unfold splitOn
    split
    · simp
    · cases h : splitOn sep cs <;> simp

/-- The number of pieces of a split is the separator count plus one. -/
theorem length_splitOn (sep : Char) : ∀ l : Str, (splitOn sep l).length = l.count sep + 1 := by
  intro l
  induction l with
  | nil => simp [splitOn]
  | cons c cs ih =>
    unfold splitOn
    by_cases hc : c = sep
    · simp [hc, ih, List.count_cons]
    · cases h : splitOn sep cs with
      | nil => exact absurd h (splitOn_ne_nil sep cs)
      | cons l0 ls =>
        have := ih
        rw [h] at this
        simp only [List.length_cons] at this ⊢
        simp [List.count_cons, hc, this]

/-- Pieces of a split do not contain the separator. -/
theorem not_mem_splitOn (sep : Char) : ∀ l w, w ∈ splitOn sep l → sep ∉ w := by
  intro l
  induction l with
  | nil =>
    intro w hw
    simp [splitOn] at hw
    simp [hw]
  | cons c cs ih =>
    intro w hw
    unfold splitOn at hw
    by_cases hc : c = sep
    · rw [if_pos hc] at hw
      rcases List.mem_cons.mp hw with h | h
      · simp [h]
      · exact ih w h
    · rw [if_neg hc] at hw
      cases h : splitOn sep cs with
      | nil => exact absurd h (splitOn_ne_nil sep cs)
      | cons l0 ls =>
        rw [h] at hw
        rcases List.mem_cons.mp hw with h1 | h1
        · subst h1
          intro hmem
          rcases List.mem_cons.mp hmem with h2 | h2
          · exact hc h2.symm
          · exact ih l0 (h ▸ List.mem_cons_self l0 ls) h2
        · exact ih w (h ▸ List.mem_cons_of_mem l0 h1)

/-- Splitting a separator-free word returns the word alone. -/
theorem splitOn_single (sep : Char) : ∀ w : Str, sep ∉ w → splitOn sep w = [w] := by
  intro w
  induction w with
  | nil => intro _; simp [splitOn]
  | cons c cs ih =>
    intro h
    have hc : c ≠ sep := fun hcc => h (hcc ▸ List.mem_cons_self c cs)
    have hcs : sep ∉ cs := fun hm => h (List.mem_cons_of_mem c hm)
    unfold splitOn
    rw [if_neg hc, ih hcs]

/-- Splitting a word, the separator, then a rest peels off the word. -/
theorem splitOn_append_cons (sep : Char) :
    ∀ w rest : Str, sep ∉ w →
      splitOn sep (w ++ sep :: rest) = w :: splitOn sep rest := by
  intro w
  induction w with
  | nil =>
    intro rest _
    simp [splitOn]
  | cons c cs ih =>
    intro rest h
    have hc : c ≠ sep := fun hcc => h (hcc ▸ List.mem_cons_self c cs)
    have hcs : sep ∉ cs := fun hm => h (List.mem_cons_of_mem c hm)
    simp only [List.cons_append]
    rw [splitOn, if_neg hc, ih rest hcs]

/-- Splitting a join recovers the separator-free pieces. -/
theorem splitOn_joinSep (sep : Char) :
    ∀ ws : List Str, ws ≠ [] → (∀ w ∈ ws, sep ∉ w) →
      splitOn sep (joinSep sep ws) = ws := by
  intro ws
  induction ws with
  | nil => intro h _; exact absurd rfl h
  | cons w ws ih =>
    intro _ hmem
    cases ws with
    | nil =>
      simp only [joinSep]
      exact splitOn_single sep w (hmem w (List.mem_cons_self w []))
    | cons x xs =>
      simp only [joinSep]
      rw [splitOn_append_cons sep w _ (hmem w (List.mem_cons_self w _))]
      rw [ih (by simp) (fun v hv => hmem v (List.mem_cons_of_mem w hv))]

/-- Concatenating the line sequences of the produced chunk contents yields
the remaining lines, for a positive step and sufficient fuel. -/
theorem chunkAux_join (d p : Str) (s : Nat) (lines : List Str)
    (hs : 1 ≤ s) (hnl : ∀ w ∈ lines, '\n' ∉ w) :
    ∀ fuel i, lines.length ≤ i + fuel →
      ((chunkAux d p s lines i fuel).map (fun c => splitOn '\n' c.content)).flatten
        = lines.drop i := by
  intro fuel
  induction fuel with
  | zero =>
    intro i hle
    simp only [Nat.add_zero] at hle
    simp [chunkAux, List.drop_eq_nil_of_le hle]
  | succ fuel ih =>
    intro i hle
    unfold chunkAux
    by_cases h : i < lines.length
    · rw [if_pos h]
      simp only [List.map_cons, List.flatten_cons]
      have hwin : splitOn '\n' (joinSep '\n' ((lines.drop i).take s))
          = (lines.drop i).take s := by
        apply splitOn_joinSep
        · have hlen : ((lines.drop i).take s).length = min s (lines.length - i) := by
            simp [List.length_take, List.length_drop]
          intro hnil
          rw [hnil] at hlen
          simp at hlen
          omega
        · intro w hw
          exact hnl w (List.mem_of_mem_drop (List.mem_of_mem_take hw))
      rw [hwin, ih (i + s) (by omega)]
      have hdd : lines.drop (i + s) = ((lines.drop i).drop s) := by
        rw [List.drop_drop]
      rw [hdd, List.take_append_drop]
    · rw [if_neg h]
      simp [List.drop_eq_nil_of_le (by omega : lines.length ≤ i)]

/-- The line spans of the produced chunks sum to the number of remaining
lines, for a positive step and sufficient fuel. -/
theorem chunkAux_sum (d p : Str) (s : Nat) (lines : List Str) (hs : 1 ≤ s) :
    ∀ fuel i, lines.length ≤ i + fuel →
      ((chunkAux d p s lines i fuel).map (fun c => c.end_line - c.start_line + 1)).sum
        = lines.length - i := by
  intro fuel
  induction fuel with
  | zero =>
    intro i hle
    simp only [Nat.add_zero] at hle
    simp [chunkAux]
    omega
  | succ fuel ih =>
    intro i hle
    unfold chunkAux
    by_cases h : i < lines.length
    · rw [if_pos h]
      simp only [List.map_cons, List.sum_cons]
      rw [ih (i + s) (by omega)]
      omega
    · rw [if_neg h]
      simp
      omega

/-- The chunk at window index `j` starts at line `i + j * s + 1` and ends at
line `min (i + j * s + s) lines.length`. -/
theorem chunkAux_get_fields (d p : Str) (s : Nat) (lines : List Str) :
    ∀ fuel i j ch, (chunkAux d p s lines i fuel)[j]? = some ch →
      ch.start_line = i + j * s + 1
      ∧ ch.end_line = min (i + j * s + s) lines.length := by
  intro fuel
  induction fuel with
  | zero =>
    intro i j ch hch
    simp [chunkAux] at hch
  | succ fuel ih =>
    intro i j ch hch
    unfold chunkAux at hch
    by_cases h : i < lines.length
    · rw [if_pos h] at hch
      cases j with
      | zero =>
        rw [List.getElem?_cons_zero] at hch
        cases hch
        constructor <;> simp
      | succ j =>
        rw [List.getElem?_cons_succ] at hch
        have := ih (i + s) j ch hch
        constructor
        · rw [this.1]; ring_nf
        · rw [this.2]; congr 1; ring_nf
    · rw [if_neg h] at hch
      simp at hch

/-- C1 (amended): for every chunk size s > 0 and every parsed document with
non-empty content, chunk_document succeeds, concatenating the line
sequences of the chunk contents in order reconstructs the line sequence of
the content, and the spans sum to the document's line count.  (For empty
content the chunker still emits one chunk and the spans sum to 1 while the
line count is 0; see the counterexample.) -/
theorem chunk_coverage_amended (s : Int) (path content : Str) (language : String)
    (hs : 0 < s) (hne : content ≠ []) :
    chunk_document s (baseParse path content language)
        = .ok (chunksOf s.toNat (baseParse path content language))
    ∧ ((chunksOf s.toNat (baseParse path content language)).map
          (fun c => splitOn '\n' c.content)).flatten = splitOn '\n' content
    ∧ ((chunksOf s.toNat (baseParse path content language)).map
          (fun c => c.end_line - c.start_line + 1)).sum
        = (baseParse path content language).lines := by
  have hs1 : 1 ≤ s.toNat := by omega
  refine ⟨?_, ?_, ?_⟩
  · unfold chunk_document
    rw [if_neg (by omega), if_neg (by omega)]
  · unfold chunksOf
    have := chunkAux_join (baseParse path content language).id
      (baseParse path content language).path s.toNat
      (splitOn '\n' (baseParse path content language).content) hs1
      (fun w hw => not_mem_splitOn '\n' _ w hw)
      (splitOn '\n' (baseParse path content language).content).length 0 (by omega)
    simp only [List.drop_zero] at this
    exact this
  · unfold chunksOf
    have := chunkAux_sum (baseParse path content language).id
      (baseParse path content language).path s.toNat
      (splitOn '\n' (baseParse path content language).content) hs1
      (splitOn '\n' (baseParse path content language).content).length 0 (by omega)
    simp only [Nat.sub_zero] at this
    rw [this, length_splitOn]
    show content.count '\n' + 1 = docLines content
    unfold docLines
    rw [if_neg hne]

/-- C1 witness: concrete three-line document, chunk size 2. -/
theorem chunk_coverage_witness :
    ((chunksOf (2 : Int).toNat (baseParse ("f.py".data) ("a\nb\nc".data) "python")).map
        (fun c => c.end_line - c.start_line + 1)).sum
      = (baseParse ("f.py".data) ("a\nb\nc".data) "python").lines :=
  (chunk_coverage_amended 2 ("f.py".data) ("a\nb\nc".data) "python"
    (by decide) (by decide)).2.2

/-- C1 counterexample: for the empty document the chunk spans sum to 1 while
the document's line count is 0, refuting the unrestricted claim. -/
theorem chunk_coverage_counterexample :
    (((chunksOf (1 : Int).toNat (baseParse ("a.txt".data) [] "text")).map
        (fun c => c.end_line - c.start_line + 1)).sum = 1)
    ∧ (baseParse ("a.txt".data) [] "text").lines = 0
    ∧ chunk_document 1 (baseParse ("a.txt".data) [] "text")
        = .ok (chunksOf (1 : Int).toNat (baseParse ("a.txt".data) [] "text")) := by
  decide

/-- C2 (amended): for every chunk size s ≥ 1 the chunker applied to a
document with empty content returns exactly one chunk, whose content is
empty and whose line range is [1, 1] — not zero chunks. -/
theorem empty_document_chunks_amended (s : Int) (path : Str) (language : String)
    (hs : 1 ≤ s) :
    chunk_document s (baseParse path [] language)
      = .ok [{ doc_id := docId path [], path := path, content := [],
               start_line := 1, end_line := 1 }] := by
  unfold chunk_document
  rw [if_neg (by omega), if_neg (by omega)]
  obtain ⟨k, hk⟩ : ∃ k, s.toNat = k + 1 := ⟨s.toNat - 1, by omega⟩
  rw [hk]
  have hmin : min (0 + (k + 1)) 1 = 1 := by omega
  simp [chunksOf, baseParse, splitOn, chunkAux, joinSep, docId, hmin,
    List.take_succ_cons]

/-- C2 witness: chunk size 1 on an empty document. -/
theorem empty_document_chunks_witness :
    chunk_document 1 (baseParse ("g.txt".data) [] "text")
      = .ok [{ doc_id := docId ("g.txt".data) [], path := "g.txt".data, content := [],
               start_line := 1, end_line := 1 }] :=
  empty_document_chunks_amended 1 ("g.txt".data) "text" (by decide)

/-- C2 counterexample: the empty document yields one chunk, not an empty
chunk sequence. -/
theorem empty_document_chunks_counterexample :
    chunk_document 1 (baseParse ("f.txt".data) [] "text")
        = .ok [{ doc_id := docId ("f.txt".data) [], path := "f.txt".data, content := [],
                 start_line := 1, end_line := 1 }]
    ∧ chunk_document 1 (baseParse ("f.txt".data) [] "text") ≠ .ok ([] : List Chunk) := by
  decide

/-- C3 (confirmed): for every chunk size s > 0 and every document, the chunk
at 0-based window index j has start line j*s + 1 and end line
min ((j+1)*s, totalLines), and spans at most s lines. -/
theorem chunk_window_bounds (s : Int) (doc : Document) (j : Nat) (hs : 0 < s)
    (hj : j < (chunksOf s.toNat doc).length) :
    chunk_document s doc = .ok (chunksOf s.toNat doc)
    ∧ ((chunksOf s.toNat doc).get ⟨j, hj⟩).start_line = j * s.toNat + 1
    ∧ ((chunksOf s.toNat doc).get ⟨j, hj⟩).end_line
        = min ((j + 1) * s.toNat) (splitOn '\n' doc.content).length
    ∧ ((chunksOf s.toNat doc).get ⟨j, hj⟩).end_line
        - ((chunksOf s.toNat doc).get ⟨j, hj⟩).start_line + 1 ≤ s.toNat := by
  have hsome : (chunksOf s.toNat doc)[j]? = some ((chunksOf s.toNat doc).get ⟨j, hj⟩) := by
    rw [List.get_eq_getElem, List.getElem?_eq_getElem hj]
  have hfields := chunkAux_get_fields doc.id doc.path s.toNat
    (splitOn '\n' doc.content) (splitOn '\n' doc.content).length 0 j
    ((chunksOf s.toNat doc).get ⟨j, hj⟩) hsome
  simp only [Nat.zero_add] at hfields
  refine ⟨?_, ?_, ?_, ?_⟩
  · unfold chunk_document
    rw [if_neg (by omega), if_neg (by omega)]
  · rw [hfields.1]
  · rw [hfields.2]; congr 1; ring_nf
  · rw [hfields.1, hfields.2]
    have hs1 : 1 ≤ s.toNat := by omega
    omega

/-- C3 witness: chunk size 2 on a three-line document, window index 1. -/
theorem chunk_window_bounds_witness :
    ((chunksOf (2 : Int).toNat (baseParse ("f.txt".data) ("a\nb\nc".data) "text")).get
        ⟨1, by decide⟩).start_line = 1 * (2 : Int).toNat + 1 :=
  (chunk_window_bounds 2 (baseParse ("f.txt".data) ("a\nb\nc".data) "text") 1
    (by decide) (by decide)).2.1

/-- C4 (amended): before scanning, `main` rejects only a nonexistent root
path; a non-positive chunk size and a non-positive max-files value pass
configuration unexamined.  Chunk size 0 then raises inside the chunker
(which is therefore reached), a negative chunk size silently yields no
chunks, and a non-positive max-files cap makes the traversal return an
empty document list after it has started. -/
theorem config_validation_amended (pe : Bool) (c m s mf : Int) (doc : Document)
    (ug : Bool) (spec : Option (List GitRule)) (pats : List Str)
    (entries : List FileInfo) (hs : s < 0) (hmf : mf ≤ 0) :
    (mainValidate pe c m = none ↔ pe = true)
    ∧ chunk_document 0 doc = .error "ValueError: range() arg 3 must not be zero"
    ∧ chunk_document s doc = .ok []
    ∧ read_files ug spec pats mf entries = .ok [] := by
  refine ⟨?_, ?_, ?_, ?_⟩
  · unfold mainValidate
    cases pe <;> simp
  · unfold chunk_document
    rw [if_pos rfl]
  · unfold chunk_document
    rw [if_neg (by omega), if_pos hs]
  · unfold read_files
    cases entries with
    | nil => rfl
    | cons f fs =>
      unfold readFilesAux
      rw [if_pos hmf]

/-- C4 witness: a negative chunk size reaches the chunker and produces no
chunks. -/
theorem config_validation_witness :
    chunk_document (-1) (baseParse ("w.txt".data) ("x".data) "text") = .ok [] :=
  (config_validation_amended true 0 0 (-1) 0
    (baseParse ("w.txt".data) ("x".data) "text")
    false none [] [] (by decide) (by decide)).2.2.1

/-- C4 counterexample: with an existing root path but chunk size and
max-files both non-positive, configuration validation reports no error,
and chunk size 0 errors inside the chunker itself rather than being
rejected before the scan. -/
theorem config_validation_counterexample :
    mainValidate true 0 0 = none
    ∧ mainValidate true (-5) (-5) = none
    ∧ chunk_document 0 (baseParse ("f.py".data) ("x".data) "python")
        = .error "ValueError: range() arg 3 must not be zero" := by
  decide

/-- C5 (confirmed): a path is excluded exactly when the ignore file or the
pattern list excludes it; a pattern hit excludes the path no matter what
the ignore-file rules say (so a re-inclusion rule never overrides user or
default patterns); a default-noise hit excludes under any user pattern
list and ignore file; and an ignore-file re-inclusion rule does override
an earlier ignore-file exclusion of the same path, while a user pattern
for that path still excludes it. -/
theorem exclusion_precedence (ug : Bool) (spec : Option (List GitRule))
    (rules : List GitRule) (pats userPats comps : List Str) :
    (should_exclude ug spec pats comps
        = (ignoreFileExcludes ug spec comps || patternsExclude pats comps))
    ∧ (patternsExclude pats comps ≤ should_exclude ug (some rules) pats comps)
    ∧ (patternsExclude defaultExcludes comps
        ≤ should_exclude ug spec (userPats ++ defaultExcludes) comps)
    ∧ (matchFile c5RulesBoth (joinSep '/' c5Comps) = false
        ∧ should_exclude true (some c5RulesBoth) [] c5Comps = false
        ∧ should_exclude true (some c5RulesExclude) [] c5Comps = true
        ∧ should_exclude true (some c5RulesBoth) ["b.txt".data] c5Comps = true) := by
  refine ⟨?_, ?_, ?_, by decide⟩
  · unfold should_exclude
    cases h : ignoreFileExcludes ug spec comps <;> simp [h]
  · by_cases hp : patternsExclude pats comps = true
    · have hse : should_exclude ug (some rules) pats comps = true := by
        unfold should_exclude
        split
        · rfl
        · exact hp
      rw [hp, hse]
    · rw [Bool.not_eq_true] at hp
      rw [hp]
      exact Bool.false_le _
  · by_cases hp : patternsExclude defaultExcludes comps = true
    · have hp2 : patternsExclude (userPats ++ defaultExcludes) comps = true := by
        unfold patternsExclude at hp ⊢
        rw [List.any_append, hp, Bool.or_true]
      have hse : should_exclude ug spec (userPats ++ defaultExcludes) comps = true := by
        unfold should_exclude
        split
        · rfl
        · exact hp2
      rw [hp, hse]
    · rw [Bool.not_eq_true] at hp
      rw [hp]
      exact Bool.false_le _

/-- Two lists of which neither is a prefix of the other cannot both be
prefixes of the same list. -/
theorem keyword_conflict (p q u : Str)
    (hpq : (p.isPrefixOf q || q.isPrefixOf p) = false)
    (hp : p.isPrefixOf u = true) : q.isPrefixOf u = false := by
  by_contra hq
  rw [Bool.not_eq_false] at hq
  have h1 := List.isPrefixOf_iff_prefix.mp hp
  have h2 := List.isPrefixOf_iff_prefix.mp hq
  rcases List.prefix_or_prefix_of_prefix h1 h2 with hh | hh
  · have := List.isPrefixOf_iff_prefix.mpr hh
    simp [this] at hpq
  · have := List.isPrefixOf_iff_prefix.mpr hh
    simp [this] at hpq

/-- The loop body of the build-manifest extractor equals its
directive-kind dispatch form. -/
theorem dockerStep_eq_spec (st : DockerMeta) (l : Str) :
    dockerStep st l = dockerSpecStep st l := by
  unfold dockerStep dockerSpecStep isFromLine isWorkdirLine isEntrypointLine
    isCmdLine envPairOf isEnvLine fromValue workdirValue entrypointValue cmdValue
  by_cases hF : "FROM ".data.isPrefixOf (upperStr (stripWs l)) = true
  · have hW := keyword_conflict "FROM ".data "WORKDIR ".data (upperStr (stripWs l)) (by decide) hF
    have hE := keyword_conflict "FROM ".data "ENTRYPOINT ".data (upperStr (stripWs l)) (by decide) hF
    have hC := keyword_conflict "FROM ".data "CMD ".data (upperStr (stripWs l)) (by decide) hF
    have hV := keyword_conflict "FROM ".data "ENV ".data (upperStr (stripWs l)) (by decide) hF
    cases hI : (st.image.getD []).isEmpty <;> simp [hF, hI, hW, hE, hC, hV]
  · by_cases hW : "WORKDIR ".data.isPrefixOf (upperStr (stripWs l)) = true
    · have hE := keyword_conflict "WORKDIR ".data "ENTRYPOINT ".data (upperStr (stripWs l)) (by decide) hW
      have hC := keyword_conflict "WORKDIR ".data "CMD ".data (upperStr (stripWs l)) (by decide) hW
      have hV := keyword_conflict "WORKDIR ".data "ENV ".data (upperStr (stripWs l)) (by decide) hW
      simp [hF, hW, hE, hC, hV]
    · by_cases hE : "ENTRYPOINT ".data.isPrefixOf (upperStr (stripWs l)) = true
      · have hC := keyword_conflict "ENTRYPOINT ".data "CMD ".data (upperStr (stripWs l)) (by decide) hE
        have hV := keyword_conflict "ENTRYPOINT ".data "ENV ".data (upperStr (stripWs l)) (by decide) hE
        simp [hF, hW, hE, hC, hV]
      · by_cases hC : "CMD ".data.isPrefixOf (upperStr (stripWs l)) = true
        · have hV := keyword_conflict "CMD ".data "ENV ".data (upperStr (stripWs l)) (by decide) hC
          simp [hF, hW, hE, hC, hV]
        · by_cases hV : "ENV ".data.isPrefixOf (upperStr (stripWs l)) = true
          · by_cases hEq : '=' ∈ stripWs ((stripWs l).drop 4)
            · simp [hF, hW, hE, hC, hV, hEq]
            · simp only [hF, hW, hE, hC, hV]
              simp [hEq]
              rcases hsp : splitNoneOnce (stripWs ((stripWs l).drop 4)) with _ | ⟨k1, _ | ⟨v1, _ | ⟨w1, ws1⟩⟩⟩ <;>
                simp [hsp]
          · simp [hF, hW, hE, hC, hV]

/-- The optional last element of a cons in terms of the tail's. -/
theorem getLast?_cons_eq {α : Type} (a : α) : ∀ (l : List α),
    (a :: l).getLast? =
      (match l.getLast? with
       | some v => some v
       | none => some a) := by
  intro l
  induction l generalizing a with
  | nil => simp
  | cons b bs ih =>
    rw [List.getLast?_cons_cons, ih b]
    cases h : bs.getLast? <;> simp

/-- Looking a key up after a dict assignment. -/
theorem envLookup_envUpdate (k v q : Str) : ∀ (env : List (Str × Str)),
    envLookup (envUpdate env k v) q = if q = k then some v else envLookup env q := by
  intro env
  induction env with
  | nil =>
    by_cases hq : q = k
    · subst hq
      simp [envUpdate, envLookup, List.find?]
    · have hb : (k == q) = false := by
        rw [beq_eq_false_iff_ne]
        exact fun h => hq h.symm
      simp [envUpdate, envLookup, List.find?, hb, hq]
  | cons hd tl ih =>
    obtain ⟨k0, v0⟩ := hd
    by_cases h0 : k0 = k
    · subst h0
      by_cases hq : q = k0
      · subst hq
        simp [envUpdate, envLookup, List.find?]
      · have hb : (k0 == q) = false := by
          rw [beq_eq_false_iff_ne]
          exact fun h => hq h.symm
        simp [envUpdate, envLookup, List.find?, hb, hq]
    · by_cases hq : q = k0
      · subst hq
        simp [envUpdate, envLookup, List.find?, h0]
      · have hb : (k0 == q) = false := by
          rw [beq_eq_false_iff_ne]
          exact fun h => hq h.symm
        simp [envUpdate, envLookup, List.find?, h0, hb] at ih ⊢
        exact ih

/-- Image field of the dispatch step. -/
theorem specStep_image (st : DockerMeta) (l : Str) :
    (dockerSpecStep st l).image =
      if isFromLine l && (st.image.getD []).isEmpty then some (fromValue l)
      else st.image := by
  unfold dockerSpecStep
  by_cases hF : isFromLine l = true
  · cases hI : (st.image.getD []).isEmpty <;> simp [hF, hI]
  · by_cases hW : isWorkdirLine l = true
    · simp [hF, hW]
    · by_cases hE : isEntrypointLine l = true
      · simp [hF, hW, hE]
      · by_cases hC : isCmdLine l = true
        · simp [hF, hW, hE, hC]
        · rcases h : envPairOf l with _ | ⟨k, v⟩ <;> simp [hF, hW, hE, hC, h]

/-- Workdir field of the dispatch step. -/
theorem specStep_workdir (st : DockerMeta) (l : Str) :
    (dockerSpecStep st l).workdir =
      if isWorkdirLine l then some (workdirValue l) else st.workdir := by
  unfold dockerSpecStep
  by_cases hF : isFromLine l = true
  · have hW : isWorkdirLine l = false :=
      keyword_conflict "FROM ".data "WORKDIR ".data (upperStr (stripWs l)) (by decide) hF
    cases hI : (st.image.getD []).isEmpty <;> simp [hF, hI, hW]
  · by_cases hW : isWorkdirLine l = true
    · simp [hF, hW]
    · by_cases hE : isEntrypointLine l = true
      · simp [hF, hW, hE]
      · by_cases hC : isCmdLine l = true
        · simp [hF, hW, hE, hC]
        · rcases h : envPairOf l with _ | ⟨k, v⟩ <;> simp [hF, hW, hE, hC, h]

/-- Entrypoint field of the dispatch step. -/
theorem specStep_entrypoint (st : DockerMeta) (l : Str) :
    (dockerSpecStep st l).entrypoint =
      if isEntrypointLine l then some (entrypointValue l) else st.entrypoint := by
  unfold dockerSpecStep
  by_cases hF : isFromLine l = true
  · have hE : isEntrypointLine l = false :=
      keyword_conflict "FROM ".data "ENTRYPOINT ".data (upperStr (stripWs l)) (by decide) hF
    cases hI : (st.image.getD []).isEmpty <;> simp [hF, hI, hE]
  · by_cases hW : isWorkdirLine l = true
    · have hE : isEntrypointLine l = false :=
        keyword_conflict "WORKDIR ".data "ENTRYPOINT ".data (upperStr (stripWs l)) (by decide) hW
      simp [hF, hW, hE]
    · by_cases hE : isEntrypointLine l = true
      · simp [hF, hW, hE]
      · by_cases hC : isCmdLine l = true
        · simp [hF, hW, hE, hC]
        · rcases h : envPairOf l with _ | ⟨k, v⟩ <;> simp [hF, hW, hE, hC, h]

/-- Cmd field of the dispatch step. -/
theorem specStep_cmd (st : DockerMeta) (l : Str) :
    (dockerSpecStep st l).cmd =
      if isCmdLine l then some (cmdValue l) else st.cmd := by
  unfold dockerSpecStep
  by_cases hF : isFromLine l = true
  · have hC : isCmdLine l = false :=
      keyword_conflict "FROM ".data "CMD ".data (upperStr (stripWs l)) (by decide) hF
    cases hI : (st.image.getD []).isEmpty <;> simp [hF, hI, hC]
  · by_cases hW : isWorkdirLine l = true
    · have hC : isCmdLine l = false :=
        keyword_conflict "WORKDIR ".data "CMD ".data (upperStr (stripWs l)) (by decide) hW
      simp [hF, hW, hC]
    · by_cases hE : isEntrypointLine l = true
      · have hC : isCmdLine l = false :=
          keyword_conflict "ENTRYPOINT ".data "CMD ".data (upperStr (stripWs l)) (by decide) hE
        simp [hF, hW, hE, hC]
      · by_cases hC : isCmdLine l = true
        · simp [hF, hW, hE, hC]
        · rcases h : envPairOf l with _ | ⟨k, v⟩ <;> simp [hF, hW, hE, hC, h]

/-- Env field of the dispatch step. -/
theorem specStep_env (st : DockerMeta) (l : Str) :
    (dockerSpecStep st l).env =
      (match envPairOf l with
       | some (k, v) => envUpdate st.env k v
       | none => st.env) := by
  unfold dockerSpecStep
  by_cases hF : isFromLine l = true
  · have hV : isEnvLine l = false :=
      keyword_conflict "FROM ".data "ENV ".data (upperStr (stripWs l)) (by decide) hF
    have hp : envPairOf l = none := by unfold envPairOf; simp [hV]
    cases hI : (st.image.getD []).isEmpty <;> simp [hF, hI, hp]
  · by_cases hW : isWorkdirLine l = true
    · have hV : isEnvLine l = false :=
        keyword_conflict "WORKDIR ".data "ENV ".data (upperStr (stripWs l)) (by decide) hW
      have hp : envPairOf l = none := by unfold envPairOf; simp [hV]
      simp [hF, hW, hp]
    · by_cases hE : isEntrypointLine l = true
      · have hV : isEnvLine l = false :=
          keyword_conflict "ENTRYPOINT ".data "ENV ".data (upperStr (stripWs l)) (by decide) hE
        have hp : envPairOf l = none := by unfold envPairOf; simp [hV]
        simp [hF, hW, hE, hp]
      · by_cases hC : isCmdLine l = true
        · have hV : isEnvLine l = false :=
            keyword_conflict "CMD ".data "ENV ".data (upperStr (stripWs l)) (by decide) hC
          have hp : envPairOf l = none := by unfold envPairOf; simp [hV]
          simp [hF, hW, hE, hC, hp]
        · simp only [hF, hW, hE, hC, if_false, Bool.false_eq_true]
          rcases h : envPairOf l with _ | ⟨k, v⟩ <;> simp [hF, hW, hE, hC, h]

/-- Folding the loop body equals folding its dispatch form. -/
theorem dockerFold_eq_spec : ∀ (ls : List Str) (st : DockerMeta),
    ls.foldl dockerStep st = ls.foldl dockerSpecStep st := by
  intro ls
  induction ls with
  | nil => intro st; rfl
  | cons l ls ih =>
    intro st
    rw [List.foldl_cons, List.foldl_cons, dockerStep_eq_spec]
    exact ih _

/-- The workdir after the fold is the last workdir directive value. -/
theorem dockerFold_workdir : ∀ (ls : List Str) (st : DockerMeta),
    (ls.foldl dockerSpecStep st).workdir = lastValD (wdVals ls) st.workdir := by
  intro ls
  induction ls with
  | nil => intro st; simp [wdVals, lastValD]
  | cons l ls ih =>
    intro st
    rw [List.foldl_cons, ih]
    by_cases hW : isWorkdirLine l = true
    · have hv : wdVals (l :: ls) = workdirValue l :: wdVals ls := by
        simp [wdVals, List.filter_cons, hW]
      rw [hv]
      unfold lastValD
      rw [getLast?_cons_eq]
      cases h : (wdVals ls).getLast? <;> simp [h, specStep_workdir, hW]
    · have hv : wdVals (l :: ls) = wdVals ls := by
        simp [wdVals, List.filter_cons, hW]
      rw [hv]
      unfold lastValD
      cases h : (wdVals ls).getLast? <;> simp [h, specStep_workdir, hW]

/-- The entrypoint after the fold is the last entrypoint directive value. -/
theorem dockerFold_entrypoint : ∀ (ls : List Str) (st : DockerMeta),
    (ls.foldl dockerSpecStep st).entrypoint = lastValD (epVals ls) st.entrypoint := by
  intro ls
  induction ls with
  | nil => intro st; simp [epVals, lastValD]
  | cons l ls ih =>
    intro st
    rw [List.foldl_cons, ih]
    by_cases hE : isEntrypointLine l = true
    · have hv : epVals (l :: ls) = entrypointValue l :: epVals ls := by
        simp [epVals, List.filter_cons, hE]
      rw [hv]
      unfold lastValD
      rw [getLast?_cons_eq]
      cases h : (epVals ls).getLast? <;> simp [h, specStep_entrypoint, hE]
    · have hv : epVals (l :: ls) = epVals ls := by
        simp [epVals, List.filter_cons, hE]
      rw [hv]
      unfold lastValD
      cases h : (epVals ls).getLast? <;> simp [h, specStep_entrypoint, hE]

/-- The cmd after the fold is the last cmd directive value. -/
theorem dockerFold_cmd : ∀ (ls : List Str) (st : DockerMeta),
    (ls.foldl dockerSpecStep st).cmd = lastValD (cmdVals ls) st.cmd := by
  intro ls
  induction ls with
  | nil => intro st; simp [cmdVals, lastValD]
  | cons l ls ih =>
    intro st
    rw [List.foldl_cons, ih]
    by_cases hC : isCmdLine l = true
    · have hv : cmdVals (l :: ls) = cmdValue l :: cmdVals ls := by
        simp [cmdVals, List.filter_cons, hC]
      rw [hv]
      unfold lastValD
      rw [getLast?_cons_eq]
      cases h : (cmdVals ls).getLast? <;> simp [h, specStep_cmd, hC]
    · have hv : cmdVals (l :: ls) = cmdVals ls := by
        simp [cmdVals, List.filter_cons, hC]
      rw [hv]
      unfold lastValD
      cases h : (cmdVals ls).getLast? <;> simp [h, specStep_cmd, hC]

/-- The value of each env key after the fold is the last value any ENV
directive assigned to that key. -/
theorem dockerFold_env : ∀ (ls : List Str) (st : DockerMeta) (k : Str),
    envLookup (ls.foldl dockerSpecStep st).env k
      = lastValD (envValsFor k ls) (envLookup st.env k) := by
  intro ls
  induction ls with
  | nil => intro st k; simp [envValsFor, lastValD]
  | cons l ls ih =>
    intro st k
    rw [List.foldl_cons, ih]
    rcases hp : envPairOf l with _ | ⟨k0, v0⟩
    · have hv : envValsFor k (l :: ls) = envValsFor k ls := by
        simp [envValsFor, List.filterMap_cons, hp]
      have hstep : (dockerSpecStep st l).env = st.env := by
        rw [specStep_env, hp]
      rw [hv, hstep]
    · have hstep : (dockerSpecStep st l).env = envUpdate st.env k0 v0 := by
        rw [specStep_env, hp]
      rw [hstep, envLookup_envUpdate]
      by_cases hk : k = k0
      · subst hk
        have hv : envValsFor k (l :: ls) = v0 :: envValsFor k ls := by
          simp [envValsFor, List.filterMap_cons, hp]
        rw [hv]
        unfold lastValD
        rw [getLast?_cons_eq]
        cases h : (envValsFor k ls).getLast? <;> simp [h]
      · have hk2 : ¬k0 = k := fun h => hk h.symm
        have hv : envValsFor k (l :: ls) = envValsFor k ls := by
          simp [envValsFor, List.filterMap_cons, hp, hk2]
        rw [hv]
        unfold lastValD
        cases h : (envValsFor k ls).getLast? <;> simp [h, hk]

/-- The image after the fold: a truthy start value survives, else the
first non-empty FROM value wins, else empty-with-FROM gives the empty
string. -/
theorem dockerFold_image : ∀ (ls : List Str) (st : DockerMeta),
    (ls.foldl dockerSpecStep st).image = imageFromVals st.image (fromVals ls) := by
  intro ls
  induction ls with
  | nil =>
    intro st
    unfold imageFromVals fromVals
    simp
  | cons l ls ih =>
    intro st
    rw [List.foldl_cons, ih]
    by_cases hF : isFromLine l = true
    · have hvals : fromVals (l :: ls) = fromValue l :: fromVals ls := by
        simp [fromVals, List.filter_cons, hF]
      rw [hvals]
      by_cases hI : (st.image.getD []).isEmpty = true
      · have himg : (dockerSpecStep st l).image = some (fromValue l) := by
          simp [specStep_image, hF, hI]
        rw [himg]
        by_cases hv : (fromValue l).isEmpty = true
        · have hveq : fromValue l = [] := by
            cases hfv : fromValue l
            · rfl
            · rw [hfv] at hv; simp at hv
          unfold imageFromVals
          rw [hveq]
          simp [hI, List.filter_cons]
        · have hvf : (fromValue l).isEmpty = false := by
            cases hfv : (fromValue l).isEmpty
            · rfl
            · exact absurd hfv hv
          unfold imageFromVals
          simp [hvf, hI, List.filter_cons]
      · have himg : (dockerSpecStep st l).image = st.image := by
          simp [specStep_image, hI]
        have hIf : (st.image.getD []).isEmpty = false := by
          cases hg : (st.image.getD []).isEmpty
          · rfl
          · exact absurd hg hI
        rw [himg]
        unfold imageFromVals
        simp [hIf]
    · have hvals : fromVals (l :: ls) = fromVals ls := by
        simp [fromVals, List.filter_cons, hF]
      have himg : (dockerSpecStep st l).image = st.image := by
        simp [specStep_image, hF]
      rw [hvals, himg]

/-- C6 (amended): extracting a build manifest, the image is the first
base-image directive value that is non-empty after alias stripping (an
empty first value is falsy and lets a later directive win; if every value
is empty the image is the empty string); the last directive wins for
workdir, entrypoint, and cmd; every env key holds the last value assigned
to it; and the design document's concrete example extracts image
`alpine:3.18`, workdir `/app`, and env KEY `other`. -/
theorem dockerfile_directives_amended (ls : List Str) (k : Str) :
    ((dockerParseLines ls).image = imageFromVals none (fromVals ls))
    ∧ ((dockerParseLines ls).workdir = lastValD (wdVals ls) none)
    ∧ ((dockerParseLines ls).entrypoint = lastValD (epVals ls) none)
    ∧ ((dockerParseLines ls).cmd = lastValD (cmdVals ls) none)
    ∧ (envLookup (dockerParseLines ls).env k = lastValD (envValsFor k ls) none)
    ∧ ((dockerfileParse c6Example).image = some ("alpine:3.18".data)
        ∧ (dockerfileParse c6Example).workdir = some ("/app".data)
        ∧ envLookup (dockerfileParse c6Example).env ("KEY".data) = some ("other".data)) := by
  unfold dockerParseLines
  rw [dockerFold_eq_spec]
  exact ⟨dockerFold_image ls initDockerMeta, dockerFold_workdir ls initDockerMeta,
    dockerFold_entrypoint ls initDockerMeta, dockerFold_cmd ls initDockerMeta,
    dockerFold_env ls initDockerMeta k, by decide, by decide, by decide⟩

/-- C6 counterexample: on a manifest whose first base-image directive
strips to the empty value, the extracted image is the second directive's
value, not the first one's — the unqualified first-directive-wins claim
fails. -/
theorem dockerfile_first_from_counterexample :
    (dockerfileParse c6Degenerate).image = some ("alpine:3.18".data)
    ∧ fromVals (pySplitlines c6Degenerate) ≠ []
    ∧ (fromVals (pySplitlines c6Degenerate)).headD ("x".data) = []
    ∧ (dockerfileParse c6Degenerate).image
        ≠ some ((fromVals (pySplitlines c6Degenerate)).headD ("x".data)) := by
  decide

/-- Splitting lines of a carriage-return/line-feed pair. -/
theorem pySplitlines_cons_cr (rest : Str) :
    pySplitlines ('\r' :: '\n' :: rest) = [] :: pySplitlines rest := rfl

set_option maxHeartbeats 1000000 in
/-- Splitting lines of any other cons. -/
theorem pySplitlines_cons_other (c : Char) (rest : Str)
    (hne : ∀ rest1 : Str, c = '\r' → rest = '\n' :: rest1 → False) :
    pySplitlines (c :: rest) =
      (if isLineBreak c then [] :: pySplitlines rest
       else
        match pySplitlines rest with
        | [] => [[c]]
        | l0 :: ls => (c :: l0) :: ls) := by
  rw [pySplitlines.eq_def]
  split
  · rename_i heq
    simp at heq
  · rename_i rest1 heq
    injection heq with h1 h2
    exact (hne rest1 h1 h2).elim
  · rename_i c2 rest2 hne2 heq
    injection heq with h1 h2
    subst h1
    subst h2
    rfl

set_option maxHeartbeats 1000000 in
/-- The first piece of a non-empty content's line split is the longest
break-free prefix. -/
theorem pySplitlines_head : ∀ (l : Str), l ≠ [] →
    (pySplitlines l).head? = some (l.takeWhile (fun c => !isLineBreak c)) := by
  intro l
  induction l using pySplitlines.induct with
  | case1 => intro h; exact absurd rfl h
  | case2 rest ih =>
    intro _
    rw [pySplitlines_cons_cr]
    simp [List.takeWhile_cons, isLineBreak]
  | case3 c rest hne hbr ih =>
    intro _
    rw [pySplitlines_cons_other c rest hne, if_pos hbr]
    simp [List.takeWhile_cons, hbr]
  | case4 c rest hne hbr hrest ih =>
    intro _
    rw [pySplitlines_cons_other c rest hne, if_neg hbr, hrest]
    have hrnil : rest = [] := by
      by_contra hr
      have := ih hr
      rw [hrest] at this
      simp at this
    subst hrnil
    simp [List.takeWhile_cons, hbr]
  | case5 c rest hne hbr l0 ls hrest ih =>
    intro _
    rw [pySplitlines_cons_other c rest hne, if_neg hbr, hrest]
    have hrne : rest ≠ [] := by
      intro hr
      subst hr
      simp [pySplitlines] at hrest
    have hh := ih hrne
    rw [hrest] at hh
    simp only [List.head?] at hh
    simp [List.takeWhile_cons, hbr]
    cases hh
    rfl

/-- C7 (amended): for non-empty content the extracted license header is
the trimmed FIRST line of the file — not the first line whose trimmed form
is non-empty — and on empty content the extraction raises IndexError
rather than succeeding. -/
theorem license_header_amended (content : Str) (h : content ≠ []) :
    licenseHeader content
        = .ok (stripWs (content.takeWhile (fun c => !isLineBreak c)))
    ∧ licenseHeader [] = .error "IndexError: list index out of range" := by
  constructor
  · unfold licenseHeader
    have hh := pySplitlines_head content h
    cases hsp : pySplitlines content with
    | nil =>
      rw [hsp] at hh
      simp at hh
    | cons l0 ls =>
      rw [hsp] at hh
      simp only [List.head?] at hh
      cases hh
      rfl
  · rfl

/-- C7 witness: a two-line license file. -/
theorem license_header_witness :
    licenseHeader ("MIT License\nCopyright".data)
      = .ok (stripWs (("MIT License\nCopyright".data).takeWhile
          (fun c => !isLineBreak c))) :=
  (license_header_amended ("MIT License\nCopyright".data) (by decide)).1

/-- C7 counterexample: on content whose first line is blank the extracted
header is the empty string, not the first non-empty-trimmed line, and on
empty content the extraction fails. -/
theorem license_header_counterexample :
    licenseHeader ("\nMIT License".data) = .ok []
    ∧ stripWs ("MIT License".data) = "MIT License".data
    ∧ ([] : Str) ≠ "MIT License".data
    ∧ licenseHeader [] = .error "IndexError: list index out of range" := by
  decide

/-- Every code point encodes to at least one byte. -/
theorem one_le_utf8CharSize (c : Char) : 1 ≤ utf8CharSize c := by
  unfold utf8CharSize
  split_ifs <;> omega

/-- The character count never exceeds the UTF-8 byte count. -/
theorem length_le_utf8Len : ∀ content : Str, content.length ≤ utf8Len content := by
  intro content
  induction content with
  | nil => simp [utf8Len]
  | cons c cs ih =>
    unfold utf8Len at ih ⊢
    simp only [List.map_cons, List.sum_cons, List.length_cons]
    have := one_le_utf8CharSize c
    omega

/-- C8 (amended): a decodable, non-excluded regular file is skipped as too
large exactly when its decoded length in CHARACTERS exceeds 100000 — the
threshold tests `len(content)`, not the byte count.  Since one character is
at least one byte, every skipped file also exceeds 100000 bytes, but a
multibyte file can exceed 100000 bytes without being skipped. -/
theorem large_file_skip_amended (content name : Str) :
    (processEntry false none [] ⟨[name], true, some content⟩ = .tooLarge
        ↔ 100000 < content.length)
    ∧ content.length ≤ utf8Len content := by
  constructor
  · unfold processEntry
    simp only [should_exclude, ignoreFileExcludes, patternsExclude]
    simp only [Bool.false_and, List.any_nil, if_false, Bool.false_eq_true]
    by_cases h : 100000 < content.length
    · simp [h]
    · simp only [gt_iff_lt, h, if_false]
      rcases hp : parseFile [name] content with e | d <;> simp [hp, h]
  · exact length_le_utf8Len content

/-- C8 counterexample: a file of 50001 three-byte characters weighs 150003
bytes — beyond the claimed byte threshold — yet is not skipped: the
scanner accepts it and produces a Document. -/
theorem large_file_skip_counterexample :
    utf8Len c8Big = 150003
    ∧ 100000 < utf8Len c8Big
    ∧ c8Big.length = 50001
    ∧ isAcceptedResult
        (processEntry false none [] ⟨["big.txt".data], true, some c8Big⟩) = true := by
  have hc : utf8CharSize '€' = 3 := by decide
  have h1 : utf8Len c8Big = 150003 := by
    unfold c8Big utf8Len
    rw [List.map_replicate, hc, List.sum_replicate, smul_eq_mul]
  have h3 : c8Big.length = 50001 := by
    unfold c8Big
    rw [List.length_replicate]
  refine ⟨h1, by omega, h3, ?_⟩
  have hkind : parserFor ((["big.txt".data] : List Str).getLast?.getD [])
      = ParserKind.text := by decide
  have hp : parseFile ["big.txt".data] c8Big
      = .ok (baseParse (joinSep '/' ["big.txt".data]) c8Big "text") := by
    unfold parseFile
    rw [hkind]
    rfl
  have hlt : ¬(c8Big.length > 100000) := by
    rw [h3]
    omega
  unfold processEntry
  simp only [should_exclude, ignoreFileExcludes, patternsExclude]
  simp only [Bool.false_and, List.any_nil, if_false, Bool.false_eq_true]
  rw [if_neg hlt, hp]
  rfl

/-- C9 (code_bug): a scan whose root contains a file named LICENSE with
empty content does not skip-and-continue — the parse raises IndexError
(from `content.splitlines()[0]` on an empty line list) and the exception
escapes `read_files`. -/
theorem read_files_raises_on_empty_license :
    read_files false none [] 1000 [⟨["LICENSE".data], true, some []⟩]
        = .error "IndexError: list index out of range"
    ∧ parseFile ["LICENSE".data] []
        = .error "IndexError: list index out of range" := by
  decide

/-- C10 (amended): constructing a reader with a caller-supplied NON-EMPTY
pattern list mutates that very list — afterwards it is the original list
followed by the sixteen default-noise patterns, so it is longer — and the
reader's pattern list aliases it; with an empty caller list (falsy, like
`None`) a fresh list receives the defaults and the caller's list is left
untouched.  The path and flag fields are copied from the constructor
arguments, and the gitignore spec is loaded only when the flag is on. -/
theorem init_mutation_amended (path p : Str) (ps : List Str)
    (ug : Bool) (g : Option (List GitRule)) :
    ((repoReaderInit path (some (p :: ps)) ug g).callerListMutated = true
      ∧ (repoReaderInit path (some (p :: ps)) ug g).callerListAfter
          = some ((p :: ps) ++ defaultExcludes)
      ∧ ((p :: ps) ++ defaultExcludes).length > (p :: ps).length
      ∧ (repoReaderInit path (some (p :: ps)) ug g).reader.exclude_patterns
          = (p :: ps) ++ defaultExcludes)
    ∧ ((repoReaderInit path (some []) ug g).callerListMutated = false
      ∧ (repoReaderInit path (some []) ug g).callerListAfter = some []
      ∧ (repoReaderInit path (some []) ug g).reader.exclude_patterns
          = defaultExcludes)
    ∧ (repoReaderInit path (some (p :: ps)) ug g).reader.path = path
    ∧ (repoReaderInit path (some (p :: ps)) ug g).reader.use_gitignore = ug
    ∧ (repoReaderInit path (some (p :: ps)) ug g).reader.gitignore_spec
        = (if ug then g else none) := by
  refine ⟨⟨rfl, rfl, ?_, rfl⟩, ⟨rfl, rfl, rfl⟩, rfl, rfl, rfl⟩
  simp [defaultExcludes]

/-- C10 counterexample: a caller-supplied EMPTY pattern list is falsy, so
`exclude_patterns or []` replaces it by a fresh list — the caller's list
is not mutated and is not longer after construction. -/
theorem init_mutation_counterexample :
    (repoReaderInit ("repo".data) (some []) true none).callerListMutated = false
    ∧ (repoReaderInit ("repo".data) (some []) true none).callerListAfter
        = some ([] : List Str) := by
  constructor
  · rfl
  · rfl

end Git2Mind
